import Mathlib

/-!
Verification development for the AIVoiceAgent repository.

The Python sources are shallowly embedded: Python strings are modelled as
`List Char` (`Str`), fallible collaborator calls as `Except`-valued oracles,
and the cooperative (single event loop) concurrency of the session handler as
explicit state machines whose steps mirror the source's callbacks.
-/

set_option maxRecDepth 10000

/-- Python strings are modelled as lists of characters. -/
abbrev Str := List Char

/-- The (ASCII) whitespace characters recognised by Python's `str.strip()` and
by the `\s` class of the `re` module. -/
def pyIsSpace (c : Char) : Bool :=
  c = ' ' || c = '\t' || c = '\n' || c = '\r' || c = '\x0b' || c = '\x0c'

/-- Python `s.strip()`: drop leading and trailing whitespace. -/
def pyStrip (s : Str) : Str :=
  (((s.dropWhile pyIsSpace).reverse).dropWhile pyIsSpace).reverse

/-- Python `l[-n:]` for a nonnegative `n`.  Note the Python quirk that
`l[-0:]` is the whole list, faithfully reproduced here. -/
def pySliceLast (n : Nat) (l : List α) : List α :=
  if n = 0 then l else l.drop (l.length - n)

/-- Python `l[:-n]` for a nonnegative `n`.  Note the Python quirk that
`l[:-0]` is the empty list, faithfully reproduced here. -/
def pySliceDropLast (n : Nat) (l : List α) : List α :=
  if n = 0 then [] else l.take (l.length - n)

/-! ## Sentence segmentation (src/main.py lines 288-290 and 349-363)

`SENTENCE_ENDERS = re.compile(r'[.!?](?=\s|$)|\n')` searched on each LLM
token; a match together with a non-blank accumulated buffer emits the
stripped buffer as one sentence. -/

/-- One of the characters `.`, `!`, `?` of the `SENTENCE_ENDERS` class. -/
def isEnderChar (c : Char) : Bool :=
  c = '.' || c = '!' || c = '?'

/-- The lookahead `(?=\s|$)`: the rest of the fragment is empty or starts
with a whitespace character.  (The `$`-before-final-newline case of Python's
`$` is subsumed because `\n` is whitespace.) -/
def followedBySpaceOrEnd : Str → Bool
  | [] => true
  | d :: _ => pyIsSpace d

/-- `SENTENCE_ENDERS.search(token) is not None`: the token contains `.`, `!`
or `?` immediately followed by whitespace or the end of the token, or a
literal newline. -/
def sentenceEnderMatch : Str → Bool
  | [] => false
  | c :: rest =>
    (isEnderChar c && followedBySpaceOrEnd rest) || c = '\n' || sentenceEnderMatch rest

/-- The sentence-boundary condition exactly as the specification words it: a
fragment contains `.`, `!` or `?` immediately followed by whitespace or
end-of-input, or a literal newline. -/
def ClaimBoundary (s : Str) : Prop :=
  (∃ pre e rest, s = pre ++ e :: rest ∧ isEnderChar e = true ∧
    (rest = [] ∨ ∃ d rest2, rest = d :: rest2 ∧ pyIsSpace d = true))
  ∨ (∃ pre rest, s = pre ++ '\n' :: rest)

/-- The token loop of `process_user_message` restricted to its segmentation
skeleton (src/main.py lines 326-363, 382-385): accumulate tokens in
`sentence_buffer`; when a token matches `SENTENCE_ENDERS` and the buffer is
not blank, emit the stripped buffer and reset it; at stream end flush the
stripped remainder if not blank. -/
def segmentGo (buf : Str) : List Str → List Str
  | [] => if pyStrip buf ≠ [] then [pyStrip buf] else []
  | tok :: rest =>
    let buf' := buf ++ tok
    if sentenceEnderMatch tok ∧ pyStrip buf' ≠ [] then
      pyStrip buf' :: segmentGo [] rest
    else
      segmentGo buf' rest

/-- Sentences produced for a full token stream. -/
def segmentStream (tokens : List Str) : List Str :=
  segmentGo [] tokens

/-! ## Conversation memory (src/app/services/memory/conversation_memory.py)

A session record holds `messages` (role/content/timestamp) and a running
`summary` string; records are kept in a registry keyed by session id. -/

/-- One stored message: `{role, content, timestamp}`
(conversation_memory.py lines 39-43).  The wall-clock `time.time()` value is
modelled as a `Nat` supplied by the caller. -/
structure Msg where
  role : Str
  content : Str
  ts : Nat
deriving DecidableEq

/-- One session record: `{messages, summary}` (conversation_memory.py
lines 26-30; the unused `created_at` field is omitted). -/
structure MemSession where
  messages : List Msg
  summary : Str
deriving DecidableEq

/-- The memory section of `config` (src/app/config/config.py lines 75-79). -/
structure MemCfg where
  maxMessages : Nat
  summarizeAfter : Nat
deriving DecidableEq

/-- The configured values: `max_messages = 20`, `summarize_after = 15`
(config.py lines 75-79; `use_summarization` is `False`). -/
def memoryConfig : MemCfg := { maxMessages := 20, summarizeAfter := 15 }

/-- A message as handed to the LLM: role and content only
(conversation_memory.py lines 55-67). -/
structure HistMsg where
  role : Str
  content : Str
deriving DecidableEq

/-- Append a message to a session record (`add_message`, session-level part,
conversation_memory.py lines 39-43). -/
def sessAdd (s : MemSession) (role content : Str) (ts : Nat) : MemSession :=
  { s with messages := s.messages ++ [{ role := role, content := content, ts := ts }] }

/-- `apply_window`, session-level part (conversation_memory.py lines 74-77):
when the message count exceeds `max_messages`, keep `messages[-max_messages:]`. -/
def applyWindowS (cfg : MemCfg) (s : MemSession) : MemSession :=
  if cfg.maxMessages < s.messages.length then
    { s with messages := pySliceLast cfg.maxMessages s.messages }
  else s

/-- The prologue of the summary message built by `get_history`
(conversation_memory.py line 60). -/
def summaryLabel : Str := ("Previous conversation summary: ").toList

/-- `get_history`, session-level part (conversation_memory.py lines 55-67):
an optional leading system message carrying the summary, then the last
`max_messages` stored messages projected to role/content. -/
def getHistoryS (cfg : MemCfg) (s : MemSession) : List HistMsg :=
  (if s.summary ≠ [] then
    [{ role := ("system").toList, content := summaryLabel ++ s.summary }]
   else []) ++
  (pySliceLast cfg.maxMessages s.messages).map (fun m => { role := m.role, content := m.content })

/-- The separator inserted between the old summary and a new one
(conversation_memory.py lines 100-104). -/
def updateLabel : Str := ("\n\nUpdate: ").toList

/-- `summarize_and_compact`, session-level part (conversation_memory.py
lines 90-112).  The awaited `summarize_fn` collaborator is modelled as an
oracle returning `.ok summary` or `.error ()` (a raised exception); on
failure the code falls back to `apply_window`. -/
def summarizeAndCompactS (cfg : MemCfg) (summarizeFn : List Msg → Except Unit Str)
    (s : MemSession) : MemSession :=
  if s.messages.length ≤ cfg.summarizeAfter then s
  else
    let keepRecent := cfg.summarizeAfter / 2
    let toSummarize := pySliceDropLast keepRecent s.messages
    let toKeep := pySliceLast keepRecent s.messages
    match summarizeFn toSummarize with
    | .ok sm =>
      { messages := toKeep,
        summary := if s.summary ≠ [] then s.summary ++ updateLabel ++ sm else sm }
    | .error _ => applyWindowS cfg s

/-- The registry `self.sessions : sessionId -> record` modelled as an
association list in insertion order (conversation_memory.py line 22). -/
abbrev Registry := List (Str × MemSession)

/-- `self.sessions.get(session_id)`: first binding of the key, if any. -/
def cmFind : Registry → Str → Option MemSession
  | [], _ => none
  | (k, v) :: rest, sid => if k = sid then some v else cmFind rest sid

/-- Python dict assignment `self.sessions[sid] = v`: replace the existing
binding or append a new one. -/
def cmSet : Registry → Str → MemSession → Registry
  | [], sid, v => [(sid, v)]
  | (k, w) :: rest, sid, v =>
    if k = sid then (k, v) :: rest else (k, w) :: cmSet rest sid v

/-- Mutation of the record found for a key (a no-op when the key is absent). -/
def cmUpdate : Registry → Str → (MemSession → MemSession) → Registry
  | [], _, _ => []
  | (k, w) :: rest, sid, f =>
    if k = sid then (k, f w) :: rest else (k, w) :: cmUpdate rest sid f

/-- `create_session` (conversation_memory.py lines 24-31). -/
def create_session (reg : Registry) (sid : Str) : Registry :=
  cmSet reg sid { messages := [], summary := [] }

/-- `del self.sessions[sid]` of `clear_session` (conversation_memory.py
lines 118-121). -/
def clear_session : Registry → Str → Registry
  | [], _ => []
  | (k, w) :: rest, sid =>
    if k = sid then rest else (k, w) :: clear_session rest sid

/-- `add_message` (conversation_memory.py lines 33-44): a missing session is
logged and left untouched. -/
def add_message (reg : Registry) (sid role content : Str) (ts : Nat) : Registry :=
  match cmFind reg sid with
  | none => reg
  | some _ => cmUpdate reg sid (fun s => sessAdd s role content ts)

/-- `get_history` (conversation_memory.py lines 46-67): a missing session
yields the empty history. -/
def get_history (cfg : MemCfg) (reg : Registry) (sid : Str) : List HistMsg :=
  match cmFind reg sid with
  | none => []
  | some s => getHistoryS cfg s

/-- `apply_window` (conversation_memory.py lines 69-78): a missing session is
left untouched. -/
def apply_window (cfg : MemCfg) (reg : Registry) (sid : Str) : Registry :=
  match cmFind reg sid with
  | none => reg
  | some _ => cmUpdate reg sid (applyWindowS cfg)

/-- `get_message_count` (conversation_memory.py lines 114-116). -/
def get_message_count (reg : Registry) (sid : Str) : Nat :=
  match cmFind reg sid with
  | none => 0
  | some s => s.messages.length

/-! ## The memory effect of one completed turn (src/main.py lines 306-402)

In sliding-window mode a turn stores the user message (line 308), applies the
window (line 314), and after the LLM stream ends stores the assistant
response when its stripped text is non-empty (lines 401-402). -/

/-- The inputs of one completed, un-aborted turn: user text, assistant
response text, and the two store timestamps. -/
structure TurnSpec where
  user : Str
  resp : Str
  t1 : Nat
  t2 : Nat
deriving DecidableEq

/-- Memory effect of one turn of `process_user_message` in sliding-window
mode (main.py lines 308, 314, 401-402). -/
def memTurn (cfg : MemCfg) (s : MemSession) (tp : TurnSpec) : MemSession :=
  let s1 := sessAdd s ("user").toList tp.user tp.t1
  let s2 := applyWindowS cfg s1
  if pyStrip tp.resp ≠ [] then sessAdd s2 ("assistant").toList tp.resp tp.t2 else s2

/-- A sequence of completed turns starting from a given session record. -/
def runTurns (cfg : MemCfg) (s : MemSession) : List TurnSpec → MemSession
  | [] => s
  | tp :: tps => runTurns cfg (memTurn cfg s tp) tps

/-- All messages a turn appends, in chronological order. -/
def turnMsgs (tp : TurnSpec) : List Msg :=
  { role := ("user").toList, content := tp.user, ts := tp.t1 } ::
  (if pyStrip tp.resp ≠ [] then
    [{ role := ("assistant").toList, content := tp.resp, ts := tp.t2 }]
   else [])

/-- The full chronological message sequence of a list of turns. -/
def allMsgs : List TurnSpec → List Msg
  | [] => []
  | tp :: tps => turnMsgs tp ++ allMsgs tps

/-- The empty session record every session starts from
(conversation_memory.py lines 26-30). -/
def emptySession : MemSession := { messages := [], summary := [] }

/-! ## Barge-in controller (src/main.py lines 153-164)

`abort_current_response` is called with the per-connection `is_processing`
flag and the current turn's `abort_event`; it returns immediately when the
event is already set, and otherwise, while a turn is processing, sets the
event and schedules a single `audio_interrupted` notification. -/

/-- The observable per-connection state touched by `abort_current_response`:
the `is_processing` flag, the `abort_event` flag, the number of
`audio_interrupted` notifications scheduled so far, and the session's memory
record (which the function never touches). -/
structure AbortSt where
  processing : Bool
  flag : Bool
  interrupts : Nat
  mem : MemSession
deriving DecidableEq

/-- `abort_current_response` (main.py lines 157-164). -/
def abort_current_response (s : AbortSt) : AbortSt :=
  if s.flag then s
  else if s.processing then
    { s with flag := true, interrupts := s.interrupts + 1 }
  else s

/-! ## Transcript aggregation and turn dispatch (src/main.py lines 169-225)

The utterance buffer is written by the `on_transcript` callback and drained
by `on_utterance_end`.  Turns nest at most two deep: a turn dispatched
directly by `on_utterance_end` (depth 1) re-checks the buffer in its
`finally` block and, if non-blank, immediately dispatches a second turn
(depth 2) whose own `finally` block performs no such re-check. -/

/-- Events of the single-threaded session event loop relevant to dispatch:
a final transcript fragment arriving (`on_transcript` with `is_final`), an
utterance-completion signal (`on_utterance_end`, fired by the STT
`UtteranceEnd` event or by `speech_final`), and the completion of the
in-flight `process_user_message` coroutine. -/
inductive SEv where
  | fin (t : Str)
  | uend
  | tdone
deriving DecidableEq

/-- Dispatch-relevant session state.  `depth` encodes the continuation of the
Python coroutine structure: `0` when `is_processing` is false, `1` inside the
turn dispatched at main.py line 207, `2` inside the re-entry turn dispatched
at line 221 from the `finally` block. -/
structure Sess where
  buffer : Str
  depth : Nat
  dispatched : List Str
deriving DecidableEq

/-- The buffer append of `on_transcript` for a final fragment (main.py
lines 177-178): `sep = " " if utterance_buffer else ""`. -/
def bufAppend (b t : Str) : Str :=
  b ++ (if b ≠ [] then [' '] else []) ++ t

/-- One step of the session event loop (main.py lines 169-225):
`fin` appends to the buffer; `uend` dispatches the stripped buffer when it is
non-blank and no turn is processing; `tdone` runs the `finally` cleanup of
the turn in flight, which after a depth-1 turn re-dispatches a non-blank
buffer and after a depth-2 turn does not. -/
def sessStep (s : Sess) : SEv → Sess
  | .fin t => { s with buffer := bufAppend s.buffer t }
  | .uend =>
    if pyStrip s.buffer ≠ [] ∧ s.depth = 0 then
      { buffer := [], depth := 1, dispatched := s.dispatched ++ [pyStrip s.buffer] }
    else s
  | .tdone =>
    if s.depth = 1 then
      if pyStrip s.buffer ≠ [] then
        { buffer := [], depth := 2, dispatched := s.dispatched ++ [pyStrip s.buffer] }
      else { s with depth := 0 }
    else if s.depth = 2 then { s with depth := 0 }
    else s

/-- Run the session event loop over a list of events. -/
def sessRun (s : Sess) : List SEv → Sess
  | [] => s
  | ev :: evs => sessRun (sessStep s ev) evs

/-- The state of a fresh connection (main.py lines 153-154). -/
def sessInit : Sess := { buffer := [], depth := 0, dispatched := [] }

/-- The space-joined, order-preserving concatenation of fragments, exactly as
the specification words it (single spaces between consecutive fragments). -/
def spaceJoin : List Str → Str
  | [] => []
  | [t] => t
  | t :: u :: ts => t ++ ' ' :: spaceJoin (u :: ts)

/-! ## Text-to-speech front end (src/app/services/deepgram/tts.py lines 48-76)

`synthesize` raises `ValueError` before issuing any network call when given
empty or whitespace-only text; otherwise it performs the (retried) network
call.  The post-retry network outcome is modelled as an oracle. -/

/-- `DeepgramTTS.synthesize` (tts.py lines 48-76).  `net` models the retried
Deepgram call `_with_retry(_do)`: `.ok audio` on success, `.error ()` when
retries are exhausted and the exception propagates.  The `ValueError` raised
for blank text is the `.error ()` result of the guard branch, reached without
consulting `net`. -/
def tts_synthesize (net : Str → Except Unit (List Nat)) (text : Str) : Except Unit (List Nat) :=
  if text = [] ∨ pyStrip text = [] then .error ()
  else net text

/-! ## The turn pipeline (src/main.py lines 293-426)

`process_user_message` is one cooperative coroutine; the cancellation flag
can only change while it is suspended at an `await`.  The model counts the
awaited operations (`awaits`) and takes the schedule as a parameter `A`: the
flag reads as set exactly when `A ≤ awaits`.  Messages sent to the client are
recorded together with the value of the await counter at send time.  The
`metrics.mark_*` calls are synchronous latency instrumentation with no
client-visible or memory effect and are omitted, as is the `history`
variable, whose only consumer is the LLM collaborator that the `tokens`
parameter models. -/

/-- JSON and binary messages the turn sends to the client.  An audio chunk is
tagged (in the model only) with the sentence whose synthesized audio it was
cut from. -/
inductive TMsg where
  | thinking
  | audioStart
  | speaking
  | chunk (sentence : Str) (data : List Nat)
  | audioEnd
  | response (text : Str)
deriving DecidableEq

/-- The sentence tag of an audio chunk, `none` for every JSON message. -/
def chunkSent : TMsg → Option Str
  | .chunk s _ => some s
  | _ => none

/-- The fixed inputs of one turn: the abort schedule `A` (the number of
completed awaits after which `abort_event.is_set()` reads true; a value
larger than every await count models a turn that is never interrupted), the
TTS network oracle, and the timestamp the memory writes record. -/
structure TurnCtx where
  A : Nat
  net : Str → Except Unit (List Nat)
  now : Nat

/-- The evolving state of one turn: the session's memory record, the await
counter, and the indexed trace of sends. -/
structure TurnSt where
  mem : MemSession
  awaits : Nat
  out : List (Nat × TMsg)

/-- `abort_event.is_set()` under schedule `A` (main.py lines 303-304). -/
def turnAborted (ctx : TurnCtx) (st : TurnSt) : Bool :=
  ctx.A ≤ st.awaits

/-- One awaited `ws_handler.send_*` call: record the message with the current
await index and advance the counter. -/
def doSend (st : TurnSt) (m : TMsg) : TurnSt :=
  { st with out := st.out ++ [(st.awaits, m)], awaits := st.awaits + 1 }

/-- One awaited call that sends nothing (`await tts.synthesize(...)`). -/
def doAwait (st : TurnSt) : TurnSt :=
  { st with awaits := st.awaits + 1 }

/-- The chunked delivery loop (main.py lines 371-375 and 388-392): emit
successive 4096-byte slices of the synthesized audio; the loop contains no
cancellation checkpoint.  Structured by fuel, which callers instantiate with
the audio length. -/
def sendChunksGo (sentence : Str) : Nat → TurnSt → List Nat → TurnSt
  | _, st, [] => st
  | 0, st, _ => st
  | fuel + 1, st, rest =>
    sendChunksGo sentence fuel (doSend st (.chunk sentence (rest.take 4096))) (rest.drop 4096)

/-- `while offset < len(audio_data): await send_audio(chunk)` for one
synthesized sentence. -/
def sendChunks (st : TurnSt) (sentence : Str) (audio : List Nat) : TurnSt :=
  sendChunksGo sentence audio.length st audio

/-- Synthesis and delivery of one sentence (main.py lines 365-377): one
awaited `tts.synthesize` call; a raised exception is caught and logged; on
success the chunks are delivered unless the post-synthesis checkpoint
observes the cancellation flag or the audio is empty. -/
def ttsAndStream (ctx : TurnCtx) (st : TurnSt) (sentence : Str) : TurnSt :=
  let st1 := doAwait st
  match tts_synthesize ctx.net sentence with
  | .error _ => st1
  | .ok audio =>
    if ¬ turnAborted ctx st1 ∧ audio ≠ [] then sendChunks st1 sentence audio
    else st1

/-- Result of the `async for token` loop: either the early `return` taken at
the in-loop cancellation checkpoint (main.py lines 342-347), or normal loop
exit carrying the accumulated `full_response` and `sentence_buffer`. -/
inductive LoopExit where
  | earlyReturn
  | finished (fullResp sentBuf : Str)

/-- The `async for token in llm.stream_response(history)` loop (main.py
lines 337-377).  Per token: the cancellation checkpoint (send `audio_end`,
store the partial response tagged `" [interrupted]"`, and return); then
accumulation; then sentence-boundary detection with `speaking` on the first
sentence, the pre-synthesis checkpoint (`break`), and per-sentence synthesis
and delivery. -/
def tokenLoop (ctx : TurnCtx) (st : TurnSt) (fullResp sentBuf : Str) (firstSent : Bool) :
    List Str → TurnSt × LoopExit
  | [] => (st, .finished fullResp sentBuf)
  | tok :: rest =>
    if turnAborted ctx st then
      let st1 := doSend st .audioEnd
      let taggedResp := fullResp ++ (" [interrupted]").toList
      let st2 :=
        if pyStrip fullResp ≠ [] then
          { st1 with mem := sessAdd st1.mem ("assistant").toList taggedResp ctx.now }
        else st1
      (st2, .earlyReturn)
    else
      let fullResp' := fullResp ++ tok
      let sentBuf' := sentBuf ++ tok
      if sentenceEnderMatch tok ∧ pyStrip sentBuf' ≠ [] then
        let sentence := pyStrip sentBuf'
        let st1 := if firstSent then doSend st .speaking else st
        if turnAborted ctx st1 then (st1, .finished fullResp' [])
        else tokenLoop ctx (ttsAndStream ctx st1 sentence) fullResp' [] false rest
      else tokenLoop ctx st fullResp' sentBuf' firstSent rest

/-- The tail of the turn after the token loop exits normally (main.py
lines 379-409): flush the trailing sentence (guarded by the cancellation
flag), send `audio_end`, and if the accumulated response is non-blank store
it as the assistant message and send `response`. -/
def turnFinish (ctx : TurnCtx) (st3 : TurnSt) (fullResp sentBuf : Str) :
    MemSession × List (Nat × TMsg) :=
  let st4 :=
    if pyStrip sentBuf ≠ [] ∧ ¬ turnAborted ctx st3 then
      ttsAndStream ctx st3 (pyStrip sentBuf)
    else st3
  let st5 := doSend st4 .audioEnd
  if pyStrip fullResp ≠ [] then
    let st6 := doSend st5 (.response fullResp)
    (sessAdd st6.mem ("assistant").toList fullResp ctx.now, st6.out)
  else (st5.mem, st5.out)

/-- `process_user_message` (main.py lines 293-409) in the configured
sliding-window mode, for a session whose memory record exists: store the user
message and apply the window; at the pre-LLM checkpoint an already-cancelled
turn returns with no sends; otherwise send `thinking` and `audio_start`, run
the token loop, and unless it returned early finish the turn with
`turnFinish`.  Returns the final memory record and the indexed send trace. -/
def process_user_message (cfg : MemCfg) (ctx : TurnCtx) (mem0 : MemSession)
    (userMsg : Str) (tokens : List Str) : MemSession × List (Nat × TMsg) :=
  let mem1 := sessAdd mem0 ("user").toList userMsg ctx.now
  let mem2 := applyWindowS cfg mem1
  let st0 : TurnSt := { mem := mem2, awaits := 0, out := [] }
  if turnAborted ctx st0 then (st0.mem, st0.out)
  else
    let st1 := doSend st0 .thinking
    let st2 := doSend st1 .audioStart
    match tokenLoop ctx st2 [] [] true tokens with
    | (st3, .earlyReturn) => (st3.mem, st3.out)
    | (st3, .finished fullResp sentBuf) => turnFinish ctx st3 fullResp sentBuf

/-! ## The client-visible trace under a delivery schedule

`abort_current_response` sends `audio_interrupted` through
`asyncio.ensure_future` (main.py line 164) without awaiting it, so the
notification is delivered at some later await boundary `D ≥ A` chosen by the
event loop, not synchronously at the abort. -/

/-- An entry of the merged client-visible trace: a turn send (with its await
index) or the asynchronous `audio_interrupted` notification. -/
inductive TraceEntry where
  | sent (idx : Nat) (m : TMsg)
  | interrupted
deriving DecidableEq

/-- The merged trace when the scheduled `audio_interrupted` task runs at
await boundary `D`: all turn sends issued before boundary `D`, then the
notification, then the remaining turn sends. -/
def clientTrace (out : List (Nat × TMsg)) (D : Nat) : List TraceEntry :=
  (out.filter (fun p => p.1 < D)).map (fun p => TraceEntry.sent p.1 p.2)
  ++ [TraceEntry.interrupted]
  ++ (out.filter (fun p => ¬ p.1 < D)).map (fun p => TraceEntry.sent p.1 p.2)

/-- Whether a trace entry is an audio chunk sent at or after abort boundary
`A`. -/
def isPostAbortChunk (A : Nat) : TraceEntry → Bool
  | .sent i m => (chunkSent m).isSome && A ≤ i
  | .interrupted => false

/-- The ordering property claimed for barge-in: in the merged trace, no audio
chunk issued at or after the abort boundary `A` precedes the
`audio_interrupted` notification. -/
def interruptBeforeLaterChunks (A : Nat) (tr : List TraceEntry) : Bool :=
  (tr.takeWhile (fun e => e ≠ TraceEntry.interrupted)).all
    (fun e => ¬ isPostAbortChunk A e)

/-! ## Control-message handling (src/main.py lines 232-260)

Text frames are parsed as JSON; a parse failure is logged and the loop
continues with the session state untouched. -/

/-- A text frame of the client, after the `json.loads` attempt: either
malformed (a `json.JSONDecodeError`) or a parsed object whose `type` field is
`msg.get("type")` (`none` when absent). -/
inductive CtrlIn where
  | malformed
  | ctrl (mtype : Option Str)
deriving DecidableEq

/-- The session-loop state the control branches touch: the shared memory
registry and the abort-relevant connection state. -/
structure SessionLoopSt where
  reg : Registry
  ab : AbortSt
deriving DecidableEq

/-- The control-message branches of the inbound message loop (main.py
lines 237-260).  The returned flag is `false` when the loop `break`s
(session end) and `true` when it continues.  Malformed JSON is logged and
skipped with `continue`. -/
def handleControl (sid : Str) (st : SessionLoopSt) : CtrlIn → SessionLoopSt × Bool
  | .malformed => (st, true)
  | .ctrl mtype =>
    if mtype = some (("end").toList) then
      ({ reg := clear_session st.reg sid, ab := abort_current_response st.ab }, false)
    else if mtype = some (("clear").toList) then
      ({ reg := create_session (clear_session st.reg sid) sid,
         ab := abort_current_response st.ab }, true)
    else if mtype = some (("interrupt").toList) then
      ({ st with ab := abort_current_response st.ab }, true)
    else (st, true)

/-! ## Concrete scenarios used to settle the claims -/

/-- A TTS network oracle that always succeeds with 4097 bytes of audio
(so delivery takes two chunks: 4096 bytes and 1 byte). -/
def bargeNet : Str → Except Unit (List Nat) := fun _ => Except.ok (List.replicate 4097 0)

/-- A barge-in schedule: the cancellation flag becomes set after the fifth
completed await, i.e. while the first sentence's chunk loop is running. -/
def bargeCtx : TurnCtx := { A := 5, net := bargeNet, now := 0 }

/-- The user utterance of the barge-in scenario. -/
def bargeUser : Str := ("q").toList

/-- The single LLM token of the barge-in scenario; it ends a sentence. -/
def bargeToken : Str := ("Hi. ").toList

/-- The sentence emitted for that token. -/
def bargeSentence : Str := ("Hi.").toList

/-- The memory record after the user message is stored. -/
def bargeMem : MemSession :=
  { messages := [{ role := ("user").toList, content := bargeUser, ts := 0 }], summary := [] }

/-- The turn state just after `speaking` is sent. -/
def bargeSpeakSt : TurnSt :=
  { mem := bargeMem, awaits := 3,
    out := [(0, TMsg.thinking), (1, TMsg.audioStart), (2, TMsg.speaking)] }

/-- The sends of the scenario turn up to and including both audio chunks. -/
def bargeHead : List (Nat × TMsg) :=
  [(0, TMsg.thinking), (1, TMsg.audioStart), (2, TMsg.speaking),
   (4, TMsg.chunk bargeSentence (List.replicate 4096 0)),
   (5, TMsg.chunk bargeSentence [0])]

/-- The complete send trace of the scenario turn. -/
def bargeTrace : List (Nat × TMsg) :=
  bargeHead ++ [(6, TMsg.audioEnd), (7, TMsg.response bargeToken)]

/-- The session state reached by: utterance `a` completed and dispatched,
utterance `b` completed during turn 1 and re-dispatched at its cleanup,
utterance `c` completed during the re-entry turn 2. -/
def lostSess : Sess := sessRun sessInit
  [SEv.fin ("a").toList, SEv.uend, SEv.fin ("b").toList, SEv.uend, SEv.tdone,
   SEv.fin ("c").toList, SEv.uend]

/-- One ordinary turn (non-blank user text and response) used to grow the
memory of a session. -/
def plainTurn : TurnSpec := { user := ("u").toList, resp := ("r").toList, t1 := 0, t2 := 0 }

/-- Every audio chunk sent at or after abort boundary `A` belongs to a
sentence of which some chunk was already sent strictly before `A` — i.e. only
the sentence whose chunk loop was already running when cancellation was
signalled can still produce audio. -/
def ChunkInv (A : Nat) (out : List (Nat × TMsg)) : Prop :=
  ∀ p ∈ out, ∀ s, chunkSent p.2 = some s → A ≤ p.1 →
    ∃ q ∈ out, chunkSent q.2 = some s ∧ q.1 < A

/-- The buffer contents after a run of final transcript fragments
(`on_transcript`, main.py lines 176-178), starting from buffer `b`. -/
def accumFrags (b : Str) : List Str → Str
  | [] => b
  | t :: ts => accumFrags (bufAppend b t) ts

/-- Concatenation of fragments each preceded by one space (the tail of a
space-join). -/
def joinAll : List Str → Str
  | [] => []
  | t :: ts => ' ' :: (t ++ joinAll ts)

/-! ## Helper lemmas -/

theorem replicate4097_cons : List.replicate 4097 (0:Nat) = 0 :: List.replicate 4096 0 := by
  rw [show (4097:Nat) = 4096 + 1 from rfl, List.replicate_succ]

theorem rep4097_ne_nil : List.replicate 4097 (0:Nat) ≠ [] := by
  rw [replicate4097_cons]; exact fun hh => List.noConfusion hh

theorem take4096_rep : List.take 4096 (List.replicate 4097 (0:Nat)) = List.replicate 4096 0 := by
  rw [List.take_replicate]; norm_num

theorem drop4096_rep : List.drop 4096 (List.replicate 4097 (0:Nat)) = [0] := by
  rw [List.drop_replicate]; norm_num

/-- Delivery of a 4097-byte audio buffer takes exactly two chunk sends: the
first 4096 bytes, then the final byte. -/
theorem sendChunks_4097 (st : TurnSt) (s : Str) :
    sendChunks st s (List.replicate 4097 0) =
      doSend (doSend st (TMsg.chunk s (List.replicate 4096 0))) (TMsg.chunk s [0]) := by
  unfold sendChunks
  rw [List.length_replicate]
  rw [show (4097:Nat) = 4096 + 1 from rfl]
  conv_lhs => rw [replicate4097_cons]
  rw [sendChunksGo]
  case x_3 => exact fun h => List.noConfusion h
  rw [← replicate4097_cons, take4096_rep, drop4096_rep]
  rw [show (4096:Nat) = 4095 + 1 from rfl]
  rw [sendChunksGo]
  case x_3 => exact fun h => List.noConfusion h
  rw [show List.take 4096 [(0:Nat)] = [0] from rfl]
  rw [show List.drop 4096 [(0:Nat)] = [] from rfl]
  rw [sendChunksGo]

/-- In the barge-in scenario, synthesis of the first sentence succeeds and
its delivery begins before the abort boundary. -/
theorem barge_ttsAndStream (st : TurnSt) (h : st.awaits = 3) :
    ttsAndStream bargeCtx st bargeSentence =
      sendChunks (doAwait st) bargeSentence (List.replicate 4097 0) := by
  unfold ttsAndStream
  rw [show tts_synthesize bargeCtx.net bargeSentence =
    Except.ok (List.replicate 4097 0) from rfl]
  show (if ¬ turnAborted bargeCtx (doAwait st) = true ∧ List.replicate 4097 (0:Nat) ≠ [] then
      sendChunks (doAwait st) bargeSentence (List.replicate 4097 0)
    else doAwait st) = sendChunks (doAwait st) bargeSentence (List.replicate 4097 0)
  rw [if_pos]
  constructor
  · unfold turnAborted doAwait
    simp [bargeCtx, h]
  · exact rep4097_ne_nil

/-- The scenario turn up to the token loop's normal exit, with the first
sentence's synthesis-and-delivery left symbolic. -/
theorem barge_run_shape : process_user_message memoryConfig bargeCtx emptySession bargeUser [bargeToken] =
    turnFinish bargeCtx (ttsAndStream bargeCtx bargeSpeakSt bargeSentence) bargeToken [] := rfl

/-- The synthesis-and-delivery of the scenario's first sentence, evaluated. -/
theorem barge_tts_result : ttsAndStream bargeCtx bargeSpeakSt bargeSentence =
    { mem := bargeMem, awaits := 6, out := bargeHead } := by
  rw [barge_ttsAndStream bargeSpeakSt rfl, sendChunks_4097]
  rfl

/-- The finish of the scenario turn, evaluated. -/
theorem barge_finish : turnFinish bargeCtx { mem := bargeMem, awaits := 6, out := bargeHead } bargeToken [] =
    (sessAdd bargeMem ("assistant").toList bargeToken 0, bargeTrace) := rfl

/-- The complete send trace of the barge-in scenario turn. -/
theorem barge_run_out :
    (process_user_message memoryConfig bargeCtx emptySession bargeUser [bargeToken]).2 = bargeTrace := by
  rw [barge_run_shape, barge_tts_result, barge_finish]

theorem chunkInv_nil (A : Nat) : ChunkInv A [] := by
  intro p hp
  exact absurd hp (List.not_mem_nil p)

theorem chunkInv_append_nonchunk {A : Nat} {out : List (Nat × TMsg)} {i : Nat} {m : TMsg}
    (h : ChunkInv A out) (hm : chunkSent m = none) : ChunkInv A (out ++ [(i, m)]) := by
  intro p hp s hs hA
  rcases List.mem_append.1 hp with hold | hnew
  · obtain ⟨q, hq, hqs, hqA⟩ := h p hold s hs hA
    exact ⟨q, List.mem_append_left _ hq, hqs, hqA⟩
  · rcases List.mem_singleton.1 hnew with rfl
    rw [hm] at hs
    exact absurd hs (by simp)

theorem chunkInv_sendChunksGo (s : Str) (A : Nat) :
    ∀ (fuel : Nat) (st : TurnSt), ∀ (rest : List Nat),
      ChunkInv A st.out →
      (st.awaits < A ∨ ∃ q ∈ st.out, chunkSent q.2 = some s ∧ q.1 < A) →
      ChunkInv A (sendChunksGo s fuel st rest).out := by
  intro fuel
  induction fuel with
  | zero =>
    intro st rest h _
    cases rest with
    | nil => exact h
    | cons a l => exact h
  | succ n ih =>
    intro st rest h hw
    cases rest with
    | nil => exact h
    | cons a l =>
      rw [sendChunksGo]
      case x_3 => exact fun hh => List.noConfusion hh
      apply ih
      · -- invariant for doSend st (.chunk s _)
        intro p hp s' hs' hA
        rcases List.mem_append.1 hp with hold | hnew
        · obtain ⟨q, hq, hqs, hqA⟩ := h p hold s' hs' hA
          exact ⟨q, List.mem_append_left _ hq, hqs, hqA⟩
        · rcases List.mem_singleton.1 hnew with rfl
          simp only [chunkSent] at hs'
          obtain rfl : s = s' := Option.some.inj hs'
          rcases hw with hlt | ⟨q, hq, hqs, hqA⟩
          · exact absurd hA (by omega)
          · exact ⟨q, List.mem_append_left _ hq, hqs, hqA⟩
      · -- witness for the next state
        rcases Nat.lt_or_ge st.awaits A with hlt | hge
        · exact Or.inr ⟨(st.awaits, TMsg.chunk s ((a :: l).take 4096)),
            List.mem_append_right _ (List.mem_singleton.2 rfl), rfl, hlt⟩
        · rcases hw with hlt | ⟨q, hq, hqs, hqA⟩
          · exact absurd hlt (by omega)
          · exact Or.inr ⟨q, List.mem_append_left _ hq, hqs, hqA⟩

theorem chunkInv_ttsAndStream (ctx : TurnCtx) (st : TurnSt) (sentence : Str)
    (h : ChunkInv ctx.A st.out) : ChunkInv ctx.A (ttsAndStream ctx st sentence).out := by
  unfold ttsAndStream
  dsimp only
  split
  · exact h
  · split
    · rename_i audio heq hg
      unfold sendChunks
      apply chunkInv_sendChunksGo
      · exact h
      · left
        have hna : ¬ ctx.A ≤ (doAwait st).awaits := by
          intro hc
          exact hg.1 (by unfold turnAborted; simp [hc])
        omega
    · exact h

theorem chunkInv_tokenLoop (ctx : TurnCtx) :
    ∀ (toks : List Str) (st : TurnSt) (fr sb : Str) (fs : Bool),
      ChunkInv ctx.A st.out →
      ChunkInv ctx.A (tokenLoop ctx st fr sb fs toks).1.out := by
  intro toks
  induction toks with
  | nil =>
    intro st fr sb fs h
    exact h
  | cons tok rest ih =>
    intro st fr sb fs h
    rw [tokenLoop]
    dsimp only
    by_cases ha : turnAborted ctx st = true
    · rw [if_pos ha]
      by_cases hf : pyStrip fr ≠ []
      · rw [if_pos hf]
        exact chunkInv_append_nonchunk h rfl
      · rw [if_neg hf]
        exact chunkInv_append_nonchunk h rfl
    · rw [if_neg ha]
      by_cases hb : sentenceEnderMatch tok = true ∧ pyStrip (sb ++ tok) ≠ []
      · rw [if_pos hb]
        have h1 : ChunkInv ctx.A (if fs then doSend st TMsg.speaking else st).out := by
          cases fs with
          | true => exact chunkInv_append_nonchunk h rfl
          | false => exact h
        by_cases ha2 : turnAborted ctx (if fs then doSend st TMsg.speaking else st) = true
        · rw [if_pos ha2]
          exact h1
        · rw [if_neg ha2]
          exact ih _ _ _ _ (chunkInv_ttsAndStream ctx _ _ h1)
      · rw [if_neg hb]
        exact ih _ _ _ _ h

theorem chunkInv_turnFinish (ctx : TurnCtx) (st3 : TurnSt) (fr sb : Str)
    (h : ChunkInv ctx.A st3.out) : ChunkInv ctx.A (turnFinish ctx st3 fr sb).2 := by
  unfold turnFinish
  dsimp only
  have h4 : ChunkInv ctx.A
      (if pyStrip sb ≠ [] ∧ ¬ turnAborted ctx st3 = true then
        ttsAndStream ctx st3 (pyStrip sb) else st3).out := by
    by_cases hg : pyStrip sb ≠ [] ∧ ¬ turnAborted ctx st3 = true
    · rw [if_pos hg]
      exact chunkInv_ttsAndStream ctx _ _ h
    · rw [if_neg hg]
      exact h
  by_cases hr : pyStrip fr ≠ []
  · rw [if_pos hr]
    exact chunkInv_append_nonchunk (chunkInv_append_nonchunk h4 rfl) rfl
  · rw [if_neg hr]
    exact chunkInv_append_nonchunk h4 rfl

theorem chunkInv_turn (cfg : MemCfg) (ctx : TurnCtx) (mem0 : MemSession)
    (userMsg : Str) (tokens : List Str) :
    ChunkInv ctx.A (process_user_message cfg ctx mem0 userMsg tokens).2 := by
  unfold process_user_message
  by_cases h0 : turnAborted ctx
      { mem := applyWindowS cfg (sessAdd mem0 ("user").toList userMsg ctx.now),
        awaits := 0, out := [] } = true
  · rw [if_pos h0]
    exact chunkInv_nil ctx.A
  · rw [if_neg h0]
    dsimp only
    have h2 : ChunkInv ctx.A (doSend (doSend
        { mem := applyWindowS cfg (sessAdd mem0 ("user").toList userMsg ctx.now),
          awaits := 0, out := [] } TMsg.thinking) TMsg.audioStart).out :=
      chunkInv_append_nonchunk (chunkInv_append_nonchunk (chunkInv_nil ctx.A) rfl) rfl
    have hl := chunkInv_tokenLoop ctx tokens _ [] [] true h2
    split
    · rename_i st3 heq
      rw [heq] at hl
      exact hl
    · rename_i st3 fr sb heq
      rw [heq] at hl
      exact chunkInv_turnFinish ctx st3 fr sb hl

/-- A completion signal arriving while any turn is in flight leaves the
session state unchanged: the content stays buffered (main.py line 196,
`not is_processing` fails). -/
theorem midturn_uend_noop (s : Sess) (h : s.depth ≠ 0) : sessStep s SEv.uend = s := by
  unfold sessStep
  rw [if_neg]
  intro hc
  exact h hc.2

/-- Cleanup of a directly-dispatched turn with a non-blank buffer dispatches
the stripped buffer exactly once and clears it (main.py lines 209-223). -/
theorem depth1_cleanup_dispatch (s : Sess) (h1 : s.depth = 1) (h2 : pyStrip s.buffer ≠ []) :
    sessStep s SEv.tdone =
      { buffer := [], depth := 2, dispatched := s.dispatched ++ [pyStrip s.buffer] } := by
  unfold sessStep
  rw [if_pos h1, if_pos h2]

/-- Claim C1 (counterexample): in the session state reached after utterance
`a` was dispatched, `b` completed mid-turn and was re-dispatched at turn 1's
cleanup, and `c` completed during the re-entry turn, the re-entry turn's
cleanup dispatches nothing: `c` stays in the buffer with no turn in flight,
contradicting "dispatched exactly once, immediately after the in-flight
turn's cleanup". -/
theorem c1_counterexample :
    lostSess.depth = 2 ∧ pyStrip lostSess.buffer ≠ [] ∧
    (sessStep lostSess SEv.tdone).dispatched = lostSess.dispatched ∧
    (sessStep lostSess SEv.tdone).buffer = lostSess.buffer ∧
    (sessStep lostSess SEv.tdone).depth = 0 := by decide

/-- Claim C1 (amended): an utterance completing while a turn is in flight is
never dropped from the buffer and is not dispatched a second time, and when
the in-flight turn is the directly dispatched one its cleanup dispatches the
buffered utterance exactly once, immediately; an utterance completing during
the re-entry turn, however, stays buffered until a later completion signal. -/
theorem c1_no_utterance_lost_amended :
    (∀ s : Sess, s.depth ≠ 0 → sessStep s SEv.uend = s) ∧
    (∀ s : Sess, s.depth = 1 → pyStrip s.buffer ≠ [] →
      sessStep s SEv.tdone =
        { buffer := [], depth := 2, dispatched := s.dispatched ++ [pyStrip s.buffer] }) :=
  ⟨midturn_uend_noop, depth1_cleanup_dispatch⟩

/-- Witness for the amended C1 at a concrete state. -/
theorem c1_no_utterance_lost_amended_witness :
    sessStep { buffer := ("x").toList, depth := 1, dispatched := [] } SEv.tdone =
      { buffer := [], depth := 2, dispatched := [] ++ [pyStrip ("x").toList] } ∧
    sessStep { buffer := ("y").toList, depth := 2, dispatched := [] } SEv.uend =
      { buffer := ("y").toList, depth := 2, dispatched := [] } :=
  ⟨c1_no_utterance_lost_amended.2 _ rfl (by decide),
   c1_no_utterance_lost_amended.1 _ (by decide)⟩

/-- Claim C2 (counterexample): in the barge-in scenario (cancellation
signalled while the first sentence's two-chunk delivery is in flight, the
scheduled `audio_interrupted` task delivered one await later — a legal
schedule, `5 ≤ 6`), an audio chunk of the interrupted turn issued after the
abort is sent before `audio_interrupted`, contradicting "the
`audio_interrupted` notification is sent before any further audio chunk". -/
theorem c2_counterexample :
    (5:Nat) ≤ 6 ∧
    interruptBeforeLaterChunks 5
      (clientTrace (process_user_message memoryConfig bargeCtx emptySession
        bargeUser [bargeToken]).2 6) = false := by
  constructor
  · decide
  · rw [barge_run_out]
    decide

/-- Claim C2 (amended): after cancellation is signalled, the only audio
chunks still sent belong to the sentence whose delivery was already in
flight (every post-abort chunk is preceded by a pre-abort chunk of the same
sentence); the asynchronously scheduled `audio_interrupted` may interleave
with those trailing chunks.  The buffered utterance is still processed as a
new full turn: cleanup of the directly-dispatched turn dispatches it
exactly once. -/
theorem c2_barge_in_ordering_amended :
    (∀ (cfg : MemCfg) (ctx : TurnCtx) (mem0 : MemSession) (userMsg : Str)
      (tokens : List Str) (p : Nat × TMsg),
      p ∈ (process_user_message cfg ctx mem0 userMsg tokens).2 →
      ∀ s, chunkSent p.2 = some s → ctx.A ≤ p.1 →
      ∃ q ∈ (process_user_message cfg ctx mem0 userMsg tokens).2,
        chunkSent q.2 = some s ∧ q.1 < ctx.A) ∧
    (∀ s : Sess, s.depth = 1 → pyStrip s.buffer ≠ [] →
      sessStep s SEv.tdone =
        { buffer := [], depth := 2, dispatched := s.dispatched ++ [pyStrip s.buffer] }) :=
  ⟨fun cfg ctx mem0 u toks p hp s hs hA => chunkInv_turn cfg ctx mem0 u toks p hp s hs hA,
   depth1_cleanup_dispatch⟩

/-- Witness for the amended C2: in the barge-in scenario the chunk sent at
await index 5 (at the abort boundary) is preceded by a chunk of the same
sentence sent before the abort. -/
theorem c2_barge_in_ordering_amended_witness :
    (∃ q ∈ (process_user_message memoryConfig bargeCtx emptySession
        bargeUser [bargeToken]).2,
      chunkSent q.2 = some bargeSentence ∧ q.1 < bargeCtx.A) ∧
    sessStep { buffer := ("z").toList, depth := 1, dispatched := [] } SEv.tdone =
      { buffer := [], depth := 2, dispatched := [] ++ [pyStrip ("z").toList] } :=
  ⟨c2_barge_in_ordering_amended.1 memoryConfig bargeCtx emptySession bargeUser [bargeToken]
    (5, TMsg.chunk bargeSentence [0]) (by rw [barge_run_out]; decide)
    bargeSentence (by decide) (by decide),
   c2_barge_in_ordering_amended.2 _ rfl (by decide)⟩

/-- The compiled regex matches a fragment exactly under the specification's
boundary condition. -/
theorem sentenceEnderMatch_iff (s : Str) : sentenceEnderMatch s = true ↔ ClaimBoundary s := by
  induction s with
  | nil =>
    constructor
    · intro h
      exact absurd h (by rw [sentenceEnderMatch]; exact Bool.false_ne_true)
    · intro h
      rcases h with ⟨pre, e, r, heq, _, _⟩ | ⟨pre, r, heq⟩
      · exact absurd heq.symm (List.append_ne_nil_of_right_ne_nil pre (List.cons_ne_nil e r))
      · exact absurd heq.symm (List.append_ne_nil_of_right_ne_nil pre (List.cons_ne_nil _ r))
  | cons c rest ih =>
    constructor
    · intro h
      rw [sentenceEnderMatch] at h
      rcases (Bool.or_eq_true _ _).mp h with h1 | hrec
      · rcases (Bool.or_eq_true _ _).mp h1 with hab | hnl
        · have hen : isEnderChar c = true := ((Bool.and_eq_true _ _).mp hab).1
          have hfl : followedBySpaceOrEnd rest = true := ((Bool.and_eq_true _ _).mp hab).2
          left
          refine ⟨[], c, rest, rfl, hen, ?_⟩
          cases rest with
          | nil => exact Or.inl rfl
          | cons d r2 =>
            right
            exact ⟨d, r2, rfl, by rwa [followedBySpaceOrEnd] at hfl⟩
        · have : c = '\n' := of_decide_eq_true hnl
          subst this
          right
          exact ⟨[], rest, rfl⟩
      · rcases ih.1 hrec with ⟨pre, e, r, heq, hen, hcond⟩ | ⟨pre, r, heq⟩
        · left
          exact ⟨c :: pre, e, r, by rw [heq]; rfl, hen, hcond⟩
        · right
          exact ⟨c :: pre, r, by rw [heq]; rfl⟩
    · intro h
      rw [sentenceEnderMatch]
      rcases h with ⟨pre, e, r, heq, hen, hcond⟩ | ⟨pre, r, heq⟩
      · cases pre with
        | nil =>
          have hc : c = e := (List.cons.injEq _ _ _ _ ▸ heq).1
          have hr : rest = r := (List.cons.injEq _ _ _ _ ▸ heq).2
          subst hc
          subst hr
          apply (Bool.or_eq_true _ _).mpr
          left
          apply (Bool.or_eq_true _ _).mpr
          left
          apply (Bool.and_eq_true _ _).mpr
          refine ⟨hen, ?_⟩
          rcases hcond with hnil | ⟨d, r2, hr2, hsp⟩
          · rw [hnil, followedBySpaceOrEnd]
          · rw [hr2, followedBySpaceOrEnd]
            exact hsp
        | cons p pre' =>
          have hc : c = p := (List.cons.injEq _ _ _ _ ▸ heq).1
          have hr : rest = pre' ++ e :: r := (List.cons.injEq _ _ _ _ ▸ heq).2
          apply (Bool.or_eq_true _ _).mpr
          right
          exact ih.2 (Or.inl ⟨pre', e, r, hr, hen, hcond⟩)
      · cases pre with
        | nil =>
          have hc : c = '\n' := (List.cons.injEq _ _ _ _ ▸ heq).1
          apply (Bool.or_eq_true _ _).mpr
          left
          apply (Bool.or_eq_true _ _).mpr
          right
          exact decide_eq_true hc
        | cons p pre' =>
          have hr : rest = pre' ++ '\n' :: r := (List.cons.injEq _ _ _ _ ▸ heq).2
          apply (Bool.or_eq_true _ _).mpr
          right
          exact ih.2 (Or.inr ⟨pre', r, hr⟩)

/-- Claim C3 (confirmed): a sentence boundary is detected on a fragment
exactly when it contains `.`, `!` or `?` immediately followed by whitespace
or end-of-input, or a literal newline; and the stream forming
"That\x27s $3.5, right? Yes." is segmented into exactly the two claimed
sentences (the decimal point is not a boundary, the `?` before a space is). -/
theorem c3_sentence_boundary :
    (∀ tok : Str, sentenceEnderMatch tok = true ↔ ClaimBoundary tok) ∧
    segmentStream [("That\x27s $3.5, right?").toList, (" Yes.").toList] =
      [("That\x27s $3.5, right?").toList, ("Yes.").toList] :=
  ⟨sentenceEnderMatch_iff, by decide⟩

theorem sessAdd_length (s : MemSession) (r c : Str) (t : Nat) :
    (sessAdd s r c t).messages.length = s.messages.length + 1 := by
  simp [sessAdd]

/-- After `apply_window` with the configured positive window, the stored
message count never exceeds the window. -/
theorem applyWindowS_length (cfg : MemCfg) (h : 0 < cfg.maxMessages) (s : MemSession) :
    (applyWindowS cfg s).messages.length ≤ cfg.maxMessages := by
  unfold applyWindowS
  split
  · rename_i hlen
    unfold pySliceLast
    rw [if_neg (by omega)]
    simp only [List.length_drop]
    omega
  · rename_i hlen
    simp only [not_lt] at hlen
    exact hlen

/-- `apply_window` keeps a suffix of the stored messages. -/
theorem applyWindowS_suffix (cfg : MemCfg) (s : MemSession) :
    (applyWindowS cfg s).messages.IsSuffix s.messages := by
  unfold applyWindowS
  split
  · unfold pySliceLast
    split
    · exact List.suffix_refl _
    · exact List.drop_suffix _ _
  · exact List.suffix_refl _

theorem suffix_append_same {α : Type} {l1 l2 : List α} (x : List α) (h : l1.IsSuffix l2) :
    (l1 ++ x).IsSuffix (l2 ++ x) := by
  obtain ⟨t, ht⟩ := h
  exact ⟨t, by rw [← List.append_assoc, ht]⟩

theorem memTurn_length (s : MemSession) (tp : TurnSpec) :
    (memTurn memoryConfig s tp).messages.length ≤ 21 := by
  unfold memTurn
  dsimp only
  have h2 := applyWindowS_length memoryConfig (by decide)
    (sessAdd s ("user").toList tp.user tp.t1)
  have hm : memoryConfig.maxMessages = 20 := rfl
  split
  · rw [sessAdd_length]
    omega
  · omega

theorem memTurn_suffix (s : MemSession) (tp : TurnSpec) (L : List Msg)
    (h : s.messages.IsSuffix L) :
    (memTurn memoryConfig s tp).messages.IsSuffix (L ++ turnMsgs tp) := by
  unfold memTurn turnMsgs
  have h1 : (sessAdd s ("user").toList tp.user tp.t1).messages.IsSuffix
      (L ++ [{ role := ("user").toList, content := tp.user, ts := tp.t1 }]) := by
    unfold sessAdd
    exact suffix_append_same _ h
  have h2 := (applyWindowS_suffix memoryConfig
    (sessAdd s ("user").toList tp.user tp.t1)).trans h1
  split
  · rename_i hresp
    have h3 := suffix_append_same
      [{ role := ("assistant").toList, content := tp.resp, ts := tp.t2 }] h2
    unfold sessAdd
    rw [List.append_assoc] at h3
    exact h3
  · rename_i hresp
    simpa using h2

theorem runTurns_length (turns : List TurnSpec) :
    ∀ s : MemSession, s.messages.length ≤ 21 →
      (runTurns memoryConfig s turns).messages.length ≤ 21 := by
  induction turns with
  | nil => intro s h; exact h
  | cons tp tps ih =>
    intro s h
    rw [runTurns]
    exact ih _ (memTurn_length s tp)

theorem runTurns_suffix (turns : List TurnSpec) :
    ∀ (s : MemSession) (L : List Msg), s.messages.IsSuffix L →
      (runTurns memoryConfig s turns).messages.IsSuffix (L ++ allMsgs turns) := by
  induction turns with
  | nil =>
    intro s L h
    rw [runTurns, allMsgs, List.append_nil]
    exact h
  | cons tp tps ih =>
    intro s L h
    rw [runTurns, allMsgs, ← List.append_assoc]
    exact ih _ _ (memTurn_suffix s tp L h)

/-- Claim C4 (counterexample): after 11 ordinary turns from an empty session
with `max_messages = 20`, the stored message list has 21 entries — the bound
`len(messages) ≤ 20` does not hold after every turn, because the assistant
message is appended after the window was applied. -/
theorem c4_counterexample :
    (runTurns memoryConfig emptySession (List.replicate 11 plainTurn)).messages.length = 21 ∧
    ¬ ((runTurns memoryConfig emptySession (List.replicate 11 plainTurn)).messages.length ≤
        memoryConfig.maxMessages) := by decide

/-- Claim C4 (amended): in sliding-window mode with `max_messages = 20`, the
stored message list holds at most 21 messages after every turn (at most 20
immediately after the window is applied, plus the assistant message appended
at turn end), and the retained messages are always a suffix — the most
recent ones, in chronological order — of the full message sequence of the
session. -/
theorem c4_sliding_window_amended :
    (∀ turns : List TurnSpec,
      (runTurns memoryConfig emptySession turns).messages.length ≤ memoryConfig.maxMessages + 1 ∧
      (runTurns memoryConfig emptySession turns).messages.IsSuffix (allMsgs turns)) ∧
    (∀ s : MemSession, (applyWindowS memoryConfig s).messages.length ≤ memoryConfig.maxMessages) := by
  constructor
  · intro turns
    constructor
    · exact runTurns_length turns emptySession (by decide)
    · have h := runTurns_suffix turns emptySession [] (List.suffix_refl _)
      rwa [List.nil_append] at h
  · exact applyWindowS_length memoryConfig (by decide)

/-- Claim C5 (confirmed): `abort_current_response` is idempotent — a second
invocation is a no-op — and from a processing, not-yet-aborted state one
invocation (and equally two) sets the cancellation flag, schedules exactly
one `audio_interrupted` notification, and performs no memory write. -/
theorem c5_abort_idempotent :
    (∀ s : AbortSt, abort_current_response (abort_current_response s) = abort_current_response s) ∧
    (∀ s : AbortSt, s.processing = true → s.flag = false →
      (abort_current_response s).flag = true ∧
      (abort_current_response s).interrupts = s.interrupts + 1 ∧
      (abort_current_response (abort_current_response s)).interrupts = s.interrupts + 1 ∧
      (abort_current_response s).mem = s.mem ∧
      (abort_current_response (abort_current_response s)).mem = s.mem) := by
  constructor
  · intro s
    rcases s with ⟨p, f, i, m⟩
    cases p <;> cases f <;> rfl
  · intro s hp hf
    rcases s with ⟨p, f, i, m⟩
    simp only at hp hf
    subst hp
    subst hf
    exact ⟨rfl, rfl, rfl, rfl, rfl⟩

/-- Witness for C5 at a concrete processing state. -/
theorem c5_abort_idempotent_witness :
    (abort_current_response
      { processing := true, flag := false, interrupts := 0, mem := emptySession }).flag = true ∧
    (abort_current_response
      { processing := true, flag := false, interrupts := 0, mem := emptySession }).interrupts = 0 + 1 ∧
    (abort_current_response (abort_current_response
      { processing := true, flag := false, interrupts := 0, mem := emptySession })).interrupts = 0 + 1 ∧
    (abort_current_response
      { processing := true, flag := false, interrupts := 0, mem := emptySession }).mem = emptySession ∧
    (abort_current_response (abort_current_response
      { processing := true, flag := false, interrupts := 0, mem := emptySession })).mem = emptySession :=
  c5_abort_idempotent.2
    { processing := true, flag := false, interrupts := 0, mem := emptySession } rfl rfl

theorem accumFrags_of_ne_nil (frags : List Str) :
    ∀ b : Str, b ≠ [] → accumFrags b frags = b ++ joinAll frags := by
  induction frags with
  | nil =>
    intro b _
    rw [accumFrags, joinAll, List.append_nil]
  | cons t ts ih =>
    intro b hb
    rw [accumFrags, joinAll]
    have hb2 : bufAppend b t ≠ [] := by
      unfold bufAppend
      rw [if_pos hb]
      intro hc
      exact hb (List.append_eq_nil.1 (List.append_eq_nil.1 hc).1).1
    rw [ih _ hb2]
    unfold bufAppend
    rw [if_pos hb]
    simp [List.append_assoc]

theorem spaceJoin_cons (t : Str) (ts : List Str) :
    spaceJoin (t :: ts) = t ++ joinAll ts := by
  induction ts generalizing t with
  | nil => rw [spaceJoin, joinAll, List.append_nil]
  | cons u us ih =>
    rw [spaceJoin, joinAll, ih u]

theorem spaceJoin_accumFrags (frags : List Str) :
    ∃ k, spaceJoin frags = List.replicate k ' ' ++ accumFrags [] frags := by
  induction frags with
  | nil => exact ⟨0, rfl⟩
  | cons t ts ih =>
    rw [spaceJoin_cons, accumFrags]
    by_cases ht : t = []
    · subst ht
      rw [show bufAppend [] [] = [] from rfl]
      obtain ⟨k, hk⟩ := ih
      cases ts with
      | nil => exact ⟨0, rfl⟩
      | cons u us =>
        rw [joinAll, List.nil_append]
        rw [spaceJoin_cons] at hk
        refine ⟨k + 1, ?_⟩
        rw [List.replicate_succ, hk]
        rfl
    · rw [show bufAppend [] t = t from by unfold bufAppend; simp]
      rw [accumFrags_of_ne_nil ts t ht]
      exact ⟨0, rfl⟩

theorem dropWhile_replicate_space (k : Nat) (x : Str) :
    List.dropWhile pyIsSpace (List.replicate k ' ' ++ x) = List.dropWhile pyIsSpace x := by
  induction k with
  | zero => rfl
  | succ n ih =>
    rw [List.replicate_succ, List.cons_append, List.dropWhile_cons_of_pos (by decide)]
    exact ih

theorem pyStrip_replicate_space (k : Nat) (x : Str) :
    pyStrip (List.replicate k ' ' ++ x) = pyStrip x := by
  unfold pyStrip
  rw [dropWhile_replicate_space]

theorem pyStrip_accumFrags (frags : List Str) :
    pyStrip (accumFrags [] frags) = pyStrip (spaceJoin frags) := by
  obtain ⟨k, hk⟩ := spaceJoin_accumFrags frags
  rw [hk, pyStrip_replicate_space]

/-- Running the final-fragment events only accumulates the buffer. -/
theorem sessRun_fins (frags : List Str) :
    ∀ s : Sess, sessRun s (frags.map SEv.fin) =
      { buffer := accumFrags s.buffer frags, depth := s.depth, dispatched := s.dispatched } := by
  induction frags with
  | nil => intro s; rw [List.map_nil, sessRun, accumFrags]
  | cons t ts ih =>
    intro s
    rw [List.map_cons, sessRun, accumFrags]
    exact ih _

theorem sessRun_append (l1 l2 : List SEv) :
    ∀ s : Sess, sessRun s (l1 ++ l2) = sessRun (sessRun s l1) l2 := by
  induction l1 with
  | nil => intro s; rw [List.nil_append, sessRun]
  | cons ev evs ih =>
    intro s
    rw [List.cons_append, sessRun, sessRun]
    exact ih _

/-- Claim C6 (counterexample): for the single final fragment `" hi"`, the
dispatched utterance text is `"hi"` — the buffer is stripped at dispatch —
which differs from the space-joined concatenation `" hi"` of the fragments. -/
theorem c6_counterexample :
    (sessRun sessInit [SEv.fin (" hi").toList, SEv.uend]).dispatched = [("hi").toList] ∧
    ("hi").toList ≠ spaceJoin [(" hi").toList] := by decide

/-- Claim C6 (amended): for every sequence of final fragments accumulated
between dispatches, the dispatched utterance text equals the space-joined,
order-preserving concatenation of the fragments trimmed of outer whitespace;
the buffer is cleared exactly once by the dispatch; and a completion signal
arriving on a blank (already drained) buffer is a no-op. -/
theorem c6_dispatch_text_amended :
    (∀ frags : List Str, pyStrip (spaceJoin frags) ≠ [] →
      sessRun sessInit (frags.map SEv.fin ++ [SEv.uend]) =
        { buffer := [], depth := 1, dispatched := [pyStrip (spaceJoin frags)] }) ∧
    (∀ s : Sess, pyStrip s.buffer = [] → sessStep s SEv.uend = s) := by
  constructor
  · intro frags h
    rw [sessRun_append, sessRun_fins]
    show sessRun _ [SEv.uend] = _
    rw [sessRun, sessRun]
    show sessStep { buffer := accumFrags [] frags, depth := 0, dispatched := [] } SEv.uend = _
    unfold sessStep
    dsimp only
    rw [if_pos]
    · rw [List.nil_append, pyStrip_accumFrags]
    · exact ⟨by rw [pyStrip_accumFrags]; exact h, rfl⟩
  · intro s h
    unfold sessStep
    rw [if_neg]
    intro hc
    exact hc.1 h

/-- Witness for the amended C6 at the fragment sequences `["hi", "there"]`
and a concrete drained state. -/
theorem c6_dispatch_text_amended_witness :
    sessRun sessInit ([("hi").toList, ("there").toList].map SEv.fin ++ [SEv.uend]) =
      { buffer := [], depth := 1,
        dispatched := [pyStrip (spaceJoin [("hi").toList, ("there").toList])] } ∧
    sessStep { buffer := ("  ").toList, depth := 0, dispatched := [] } SEv.uend =
      { buffer := ("  ").toList, depth := 0, dispatched := [] } :=
  ⟨c6_dispatch_text_amended.1 [("hi").toList, ("there").toList] (by decide),
   c6_dispatch_text_amended.2 _ (by decide)⟩

theorem pySliceLast_eq_drop {α : Type} (n : Nat) (h : 0 < n) (l : List α) :
    pySliceLast n l = l.drop (l.length - n) := by
  unfold pySliceLast
  rw [if_neg (by omega)]

theorem pySliceDropLast_eq_take {α : Type} (n : Nat) (h : 0 < n) (l : List α) :
    pySliceDropLast n l = l.take (l.length - n) := by
  unfold pySliceDropLast
  rw [if_neg (by omega)]

theorem applyWindowS_summary (cfg : MemCfg) (s : MemSession) :
    (applyWindowS cfg s).summary = s.summary := by
  unfold applyWindowS
  split <;> rfl

/-- Claim C7 (confirmed): the history handed to the LLM is a leading
system-role message carrying the summary exactly when the summary is
non-empty, followed by the most recent `max_messages` stored messages — a
suffix of the store, of length `min max_messages count`, in order — each
projected to role and content only (timestamps dropped). -/
theorem c7_get_history (cfg : MemCfg) (s : MemSession) (h : 0 < cfg.maxMessages) :
    getHistoryS cfg s =
      (if s.summary ≠ [] then
        [{ role := ("system").toList, content := summaryLabel ++ s.summary }]
       else []) ++
      (s.messages.drop (s.messages.length - cfg.maxMessages)).map
        (fun m => { role := m.role, content := m.content }) ∧
    (s.messages.drop (s.messages.length - cfg.maxMessages)).length =
      min cfg.maxMessages s.messages.length ∧
    (s.messages.drop (s.messages.length - cfg.maxMessages)).IsSuffix s.messages := by
  refine ⟨?_, ?_, List.drop_suffix _ _⟩
  · unfold getHistoryS
    rw [pySliceLast_eq_drop cfg.maxMessages h]
  · rw [List.length_drop]
    omega

/-- Witness for C7 at a one-message session with a non-empty summary. -/
theorem c7_get_history_witness :
    getHistoryS memoryConfig
      { messages := [{ role := ("user").toList, content := ("hello").toList, ts := 1 }],
        summary := ("old").toList } =
      [{ role := ("system").toList, content := summaryLabel ++ ("old").toList },
       { role := ("user").toList, content := ("hello").toList }] :=
  (c7_get_history memoryConfig
    { messages := [{ role := ("user").toList, content := ("hello").toList, ts := 1 }],
      summary := ("old").toList } (by decide)).1

/-- Claim C8 (confirmed): when the message count exceeds `summarize_after`,
compaction splits the store into the older portion (all but the most recent
`summarize_after // 2`) and the kept portion, which together partition the
store; on summarization success the kept portion is retained and the result
is appended to the running summary; on failure the store is instead
truncated by the sliding window (a suffix), with the summary and the message
contents otherwise unchanged. -/
theorem c8_summarize_and_compact (cfg : MemCfg) (fn : List Msg → Except Unit Str)
    (s : MemSession) (hlen : cfg.summarizeAfter < s.messages.length)
    (hkeep : 0 < cfg.summarizeAfter / 2) :
    (pySliceDropLast (cfg.summarizeAfter / 2) s.messages =
        s.messages.take (s.messages.length - cfg.summarizeAfter / 2) ∧
      pySliceDropLast (cfg.summarizeAfter / 2) s.messages ++
        pySliceLast (cfg.summarizeAfter / 2) s.messages = s.messages) ∧
    (∀ sm, fn (pySliceDropLast (cfg.summarizeAfter / 2) s.messages) = Except.ok sm →
      summarizeAndCompactS cfg fn s =
        { messages := pySliceLast (cfg.summarizeAfter / 2) s.messages,
          summary := if s.summary ≠ [] then s.summary ++ updateLabel ++ sm else sm }) ∧
    (∀ e, fn (pySliceDropLast (cfg.summarizeAfter / 2) s.messages) = Except.error e →
      summarizeAndCompactS cfg fn s = applyWindowS cfg s ∧
      (applyWindowS cfg s).summary = s.summary ∧
      (applyWindowS cfg s).messages.IsSuffix s.messages) := by
  refine ⟨⟨pySliceDropLast_eq_take _ hkeep _, ?_⟩, ?_, ?_⟩
  · rw [pySliceDropLast_eq_take _ hkeep, pySliceLast_eq_drop _ hkeep]
    exact List.take_append_drop _ _
  · intro sm hok
    unfold summarizeAndCompactS
    rw [if_neg (by omega)]
    dsimp only
    rw [hok]
  · intro e herr
    refine ⟨?_, applyWindowS_summary cfg s, applyWindowS_suffix cfg s⟩
    unfold summarizeAndCompactS
    rw [if_neg (by omega)]
    dsimp only
    rw [herr]

/-- Witness for C8: sixteen stored messages with `summarize_after = 15`; a
succeeding summarizer keeps the most recent seven and installs the summary. -/
theorem c8_summarize_and_compact_witness :
    summarizeAndCompactS memoryConfig (fun _ => Except.ok (("S").toList))
      { messages := List.replicate 16 { role := ("user").toList, content := ("m").toList, ts := 0 },
        summary := [] } =
      { messages := List.replicate 7 { role := ("user").toList, content := ("m").toList, ts := 0 },
        summary := ("S").toList } :=
  (c8_summarize_and_compact memoryConfig (fun _ => Except.ok (("S").toList))
    { messages := List.replicate 16 { role := ("user").toList, content := ("m").toList, ts := 0 },
      summary := [] } (by decide) (by decide)).2.1 (("S").toList) rfl

/-- Claim C9 (confirmed): a control frame whose text is not valid JSON
leaves the session state untouched and the message loop continues; blank
text presented for synthesis is rejected before any network call — the
result is the guard's error for every network oracle — and a failed
per-sentence synthesis is caught, leaving the turn to continue (the call
advances the await counter and sends nothing). -/
theorem c9_malformed_input_safe :
    (∀ (sid : Str) (st : SessionLoopSt), handleControl sid st CtrlIn.malformed = (st, true)) ∧
    (∀ text : Str, pyStrip text = [] →
      ∀ net : Str → Except Unit (List Nat), tts_synthesize net text = Except.error ()) ∧
    (∀ (ctx : TurnCtx) (st : TurnSt) (sentence : Str) (e : Unit),
      tts_synthesize ctx.net sentence = Except.error e →
      ttsAndStream ctx st sentence = { st with awaits := st.awaits + 1 }) := by
  refine ⟨fun sid st => rfl, ?_, ?_⟩
  · intro text h net
    unfold tts_synthesize
    rw [if_pos (Or.inr h)]
  · intro ctx st sentence e herr
    unfold ttsAndStream
    dsimp only
    rw [herr]
    rfl

/-- Witness for C9: whitespace-only text is rejected without consulting the
oracle, and a turn state survives a failing synthesis call unchanged but for
the await counter. -/
theorem c9_malformed_input_safe_witness :
    tts_synthesize (fun _ => Except.ok [1, 2]) ("  ").toList = Except.error () ∧
    ttsAndStream { A := 99, net := fun _ => Except.error (), now := 0 }
        { mem := emptySession, awaits := 0, out := [] } ("hi").toList =
      { mem := emptySession, awaits := 0 + 1, out := [] } :=
  ⟨c9_malformed_input_safe.2.1 ("  ").toList (by decide) (fun _ => Except.ok [1, 2]),
   c9_malformed_input_safe.2.2 { A := 99, net := fun _ => Except.error (), now := 0 }
     { mem := emptySession, awaits := 0, out := [] } ("hi").toList () rfl⟩

/-- Claim C10 (confirmed): every ConversationMemory operation called with a
session id absent from the registry is a safe no-op: `add_message` and
`apply_window` return the registry unchanged, `get_history` returns the
empty list, and `get_message_count` returns 0. -/
theorem c10_missing_session_noop (cfg : MemCfg) (reg : Registry) (sid : Str)
    (role content : Str) (ts : Nat) (h : cmFind reg sid = none) :
    add_message reg sid role content ts = reg ∧
    get_history cfg reg sid = [] ∧
    apply_window cfg reg sid = reg ∧
    get_message_count reg sid = 0 := by
  unfold add_message get_history apply_window get_message_count
  rw [h]
  exact ⟨rfl, rfl, rfl, rfl⟩

/-- Witness for C10 on a registry holding one other session. -/
theorem c10_missing_session_noop_witness :
    add_message [(("a").toList, emptySession)] ("b").toList
        ("user").toList ("x").toList 0 = [(("a").toList, emptySession)] ∧
    get_history memoryConfig [(("a").toList, emptySession)] ("b").toList = [] ∧
    apply_window memoryConfig [(("a").toList, emptySession)] ("b").toList =
      [(("a").toList, emptySession)] ∧
    get_message_count [(("a").toList, emptySession)] ("b").toList = 0 :=
  c10_missing_session_noop memoryConfig [(("a").toList, emptySession)] ("b").toList
    ("user").toList ("x").toList 0 (by decide)
